import Mathlib

/-!
A shallow embedding of the terminal text editor in `src/kilo.c` (the "CV
Editor"), together with theorems settling the specification's claims about
it.

Bytes are modelled as `Nat` (the program is byte-oriented; values stay
below 256 for file content and below 1009 for decoded key codes).  C `int`
fields of the global `struct editorConfig E` are modelled as `Int`.  The
row array `E.row` / `E.numrows` is modelled as a `List Erow`.  Fallible
reads (`editorReadKey` on an exhausted stream) return `Option`; `exit(0)`
inside `editorProcessKeypress` is modelled by returning `none`.
-/

/-- `#define TAB_STOP 8` (kilo.c line 29). -/
def TAB_STOP : Nat := 8

/-- `#define QUIT_TIMES 3` (kilo.c line 31). -/
def QUIT_TIMES : Int := 3

/-- Key codes from `enum editorKey` (kilo.c lines 35-46). -/
def BACKSPACE : Nat := 127

def ARROW_LEFT : Nat := 1000

def ARROW_RIGHT : Nat := 1001

def ARROW_UP : Nat := 1002

def ARROW_DOWN : Nat := 1003

def PAGE_UP : Nat := 1004

def PAGE_DOWN : Nat := 1005

def HOME_KEY : Nat := 1006

def END_KEY : Nat := 1007

def DEL_KEY : Nat := 1008

/-- `struct erow` (kilo.c lines 50-56): `chars`/`size` is the raw byte
content, `render`/`rsize` the cached tab-expanded content.  Sizes are the
list lengths. -/
structure Erow where
  chars : List Nat
  render : List Nat
  deriving Repr, DecidableEq

/-- The render computation of `editorUpdateRow` (kilo.c lines 262-284),
as a function of the raw bytes with the output index `idx` as accumulator.
For a tab byte the C code emits one space (`render[idx++] = ' '`) and then
spaces `while (idx % TAB_STOP != 0)`: starting from index `idx` that is
exactly `TAB_STOP - idx % TAB_STOP` spaces, ending at the next multiple of
`TAB_STOP`. -/
def renderChars : List Nat → Nat → List Nat
  | [], _ => []
  | c :: rest, idx =>
    if c = 9 then
      List.replicate (TAB_STOP - idx % TAB_STOP) 32 ++
        renderChars rest (idx + (TAB_STOP - idx % TAB_STOP))
    else
      c :: renderChars rest (idx + 1)

/-- `editorUpdateRow` (kilo.c lines 262-284): recomputes the render cache
from the raw bytes, starting at output index 0. -/
def editorUpdateRow (chars : List Nat) : List Nat :=
  renderChars chars 0

/-- Building an `erow` the way `editorInsertRow` does (kilo.c lines
296-303): copy the raw bytes, then call `editorUpdateRow`. -/
def mkRow (s : List Nat) : Erow :=
  ⟨s, editorUpdateRow s⟩

/-- The editor state `struct editorConfig E` (kilo.c lines 59-84),
restricted to the fields the claims are about.  `quit_times` is the
`static int quit_times = QUIT_TIMES` local of `editorProcessKeypress`
(kilo.c line 730), which persists across calls exactly like a field.
`msg_time` and the saved termios are omitted (real time / terminal
state). -/
structure EState where
  cx : Int
  cy : Int
  rx : Int
  screenrows : Int
  screencols : Int
  rows : List Erow
  rowoffset : Int
  coloffset : Int
  filename : Option (List Nat)
  statusmsg : String
  dirty : Int
  quit_times : Int
  deriving Repr, DecidableEq

/-- `E.numrows` (kilo.c line 69): always equals the length of the row
array. -/
def numrows (st : EState) : Int :=
  (st.rows.length : Int)

/-- Reading `E.row[i]`.  All reads in the program are guarded by bounds
checks on `i`; out of range we return the junk row `⟨[], []⟩` (in C this
would be an out-of-bounds access). -/
def rowAt (rows : List Erow) (i : Int) : Erow :=
  if 0 ≤ i then rows.getD i.toNat ⟨[], []⟩ else ⟨[], []⟩

/-- Writing `E.row[i] = r`.  Out of range this is a no-op (in C an
out-of-bounds access; all call sites are guarded). -/
def setRow (rows : List Erow) (i : Int) (r : Erow) : List Erow :=
  if 0 ≤ i then rows.set i.toNat r else rows

/-- `E.row[i].size` read through `rowAt` (0 when `i` is out of range, in
particular on the implicit empty line `i = numrows`). -/
def rowLen (st : EState) (i : Int) : Int :=
  ((rowAt st.rows i).chars.length : Int)

/-- The freshly initialized state of `initEditor` (kilo.c lines 807-832)
with the given usable screen dimensions, with `quit_times` at its static
initial value `QUIT_TIMES`. -/
def initState (sr sc : Int) : EState :=
  { cx := 0, cy := 0, rx := 0, screenrows := sr, screencols := sc,
    rows := [], rowoffset := 0, coloffset := 0, filename := none,
    statusmsg := "", dirty := 0, quit_times := QUIT_TIMES }

/-- `vsnprintf(E.statusmsg, sizeof(E.statusmsg), ...)` in
`editorSetStatusMsg` (kilo.c lines 639-647) truncates the formatted
message to 79 characters (buffer of 80 with terminator). -/
def setStatusMsg (s : String) : String :=
  s.take 79

/-- `editorInsertRow` (kilo.c lines 288-307).  The guard
`if (at < 0 || at > E.numrows) return;` makes out-of-range calls a no-op;
in range the new row is inserted at `i` and `E.dirty` incremented. -/
def editorInsertRow (st : EState) (i : Int) (s : List Nat) : EState :=
  if i < 0 ∨ numrows st < i then st
  else
    { st with rows := st.rows.insertIdx i.toNat (mkRow s),
              dirty := st.dirty + 1 }

/-- `editorDelRow` (kilo.c lines 314-321). -/
def editorDelRow (st : EState) (i : Int) : EState :=
  if i < 0 ∨ numrows st ≤ i then st
  else
    { st with rows := st.rows.eraseIdx i.toNat, dirty := st.dirty + 1 }

/-- `editorRowInsertChar(&E.row[ri], j, c)` (kilo.c lines 323-335): the
insertion index is clamped to the row size
(`if (at < 0 || at > row->size) at = row->size;`), the byte inserted, the
render cache recomputed and `E.dirty` incremented. -/
def editorRowInsertChar (st : EState) (ri : Int) (j : Int) (c : Nat) : EState :=
  let row := rowAt st.rows ri
  let j := if j < 0 ∨ (row.chars.length : Int) < j then (row.chars.length : Int) else j
  let chars := row.chars.insertIdx j.toNat c
  { st with rows := setRow st.rows ri ⟨chars, editorUpdateRow chars⟩,
            dirty := st.dirty + 1 }

/-- `editorRowAppendString(&E.row[ri], s, len)` (kilo.c lines 337-344). -/
def editorRowAppendString (st : EState) (ri : Int) (s : List Nat) : EState :=
  let row := rowAt st.rows ri
  let chars := row.chars ++ s
  { st with rows := setRow st.rows ri ⟨chars, editorUpdateRow chars⟩,
            dirty := st.dirty + 1 }

/-- `editorRowDelChar(&E.row[ri], j)` (kilo.c lines 346-353): out-of-range
`j` is a no-op (`if (at < 0 || at >= row->size) return;`). -/
def editorRowDelChar (st : EState) (ri : Int) (j : Int) : EState :=
  let row := rowAt st.rows ri
  if j < 0 ∨ (row.chars.length : Int) ≤ j then st
  else
    let chars := row.chars.eraseIdx j.toNat
    { st with rows := setRow st.rows ri ⟨chars, editorUpdateRow chars⟩,
              dirty := st.dirty + 1 }

/-- `editorInsertChar` (kilo.c lines 356-363): on the implicit line past
end of file first append an empty row, then insert into row `cy` at `cx`
and advance `cx`. -/
def editorInsertChar (st : EState) (c : Nat) : EState :=
  let st := if st.cy = numrows st then editorInsertRow st (numrows st) [] else st
  let st := editorRowInsertChar st st.cy st.cx c
  { st with cx := st.cx + 1 }

/-- `editorInsertNewLine` (kilo.c lines 366-379): at column 0 insert an
empty row before row `cy`; otherwise insert the suffix
`&row->chars[E.cx]` (length `row->size - E.cx`) as a new row at `cy + 1`
and truncate row `cy` to its first `cx` bytes (`row->size = E.cx`),
recomputing its render cache.  Finally `cy` advances and `cx` becomes 0. -/
def editorInsertNewLine (st : EState) : EState :=
  let st :=
    if st.cx = 0 then editorInsertRow st st.cy []
    else
      let row := rowAt st.rows st.cy
      let st := editorInsertRow st (st.cy + 1) (row.chars.drop st.cx.toNat)
      let chars := (rowAt st.rows st.cy).chars.take st.cx.toNat
      { st with rows := setRow st.rows st.cy ⟨chars, editorUpdateRow chars⟩ }
  { st with cy := st.cy + 1, cx := 0 }

/-- `editorDelChar` (kilo.c lines 381-399). -/
def editorDelChar (st : EState) : EState :=
  if st.cy = numrows st then st
  else if st.cx = 0 ∧ st.cy = 0 then st
  else
    let row := rowAt st.rows st.cy
    if 0 < st.cx then
      let st := editorRowDelChar st st.cy (st.cx - 1)
      { st with cx := st.cx - 1 }
    else
      let st := { st with cx := rowLen st (st.cy - 1) }
      let st := editorRowAppendString st (st.cy - 1) row.chars
      let st := editorDelRow st st.cy
      { st with cy := st.cy - 1 }

/-- `editorRowCxToRx` (kilo.c lines 250-261): walk the first `cx` raw
bytes; a tab advances `rx` by `(TAB_STOP - 1) - (rx % TAB_STOP)` plus the
unconditional `rx++`, i.e. to the next multiple of `TAB_STOP`. -/
def editorRowCxToRx (row : Erow) (cx : Int) : Nat :=
  (row.chars.take cx.toNat).foldl
    (fun rx c => if c = 9 then rx + (TAB_STOP - rx % TAB_STOP) else rx + 1) 0

/-- `editorScroll` (kilo.c lines 517-534). -/
def editorScroll (st : EState) : EState :=
  let rx : Int :=
    if st.cy < numrows st then (editorRowCxToRx (rowAt st.rows st.cy) st.cx : Int)
    else st.cx
  let ro := if st.cy < st.rowoffset then st.cy else st.rowoffset
  let ro := if ro + st.screenrows ≤ st.cy then st.cy - st.screenrows + 1 else ro
  let co := if rx < st.coloffset then rx else st.coloffset
  let co := if co + st.screencols ≤ rx then rx - st.screencols + 1 else co
  { st with rx := rx, rowoffset := ro, coloffset := co }

/-- `editorMoveCursor` (kilo.c lines 689-726).  `row` is `NULL` exactly
when `cy ≥ numrows`; after the switch, `cx` is clamped to the current
row's size (0 on the implicit line). -/
def editorMoveCursor (st : EState) (key : Nat) : EState :=
  let rowExists := st.cy < numrows st
  let st :=
    if key = ARROW_LEFT then
      if st.cx ≠ 0 then { st with cx := st.cx - 1 }
      else if 0 < st.cy then { st with cy := st.cy - 1, cx := rowLen st (st.cy - 1) }
      else st
    else if key = ARROW_RIGHT then
      if rowExists ∧ st.cx < rowLen st st.cy then { st with cx := st.cx + 1 }
      else if rowExists ∧ st.cx = rowLen st st.cy then { st with cy := st.cy + 1, cx := 0 }
      else st
    else if key = ARROW_UP then
      if st.cy ≠ 0 then { st with cy := st.cy - 1 } else st
    else if key = ARROW_DOWN then
      if st.cy < numrows st then { st with cy := st.cy + 1 } else st
    else st
  let rl := if st.cy < numrows st then rowLen st st.cy else 0
  if rl < st.cx then { st with cx := rl } else st

/-- `editorRowsToString` (kilo.c lines 402-421): every row's raw bytes in
order, each followed by one newline byte. -/
def editorRowsToString (st : EState) : List Nat :=
  st.rows.foldr (fun r acc => r.chars ++ 10 :: acc) []

/-- Splitting a byte stream into `getline` results: each returned chunk
includes its terminating newline byte; a final chunk without a newline is
returned as-is; at end of input `getline` returns -1 (no more chunks). -/
def splitLines : List Nat → List (List Nat)
  | [] => []
  | c :: rest =>
    if c = 10 then [10] :: splitLines rest
    else
      match splitLines rest with
      | [] => [[c]]
      | line :: more => (c :: line) :: more

/-- The trimming loop of `editorOpen` (kilo.c lines 439-440): drop
trailing newline and carriage-return bytes. -/
def trimLine (l : List Nat) : List Nat :=
  (l.reverse.dropWhile fun c => c == 10 || c == 13).reverse

/-- `editorOpen` (kilo.c lines 423-450) on a file with the given content:
set the filename, then read lines with `getline`.  The code calls
`getline` once on line 435 and immediately overwrites the result in the
loop condition on line 438, so the first line of the file is read and
discarded; each remaining line is trimmed and appended.  Finally
`E.dirty = 0`. -/
def editorOpen (st : EState) (fname : List Nat) (content : List Nat) : EState :=
  let st := { st with filename := some fname }
  let ls := (splitLines content).drop 1
  let st := ls.foldl (fun s l => editorInsertRow s (numrows s) (trimLine l)) st
  { st with dirty := 0 }

/-- The body of `editorSave` after a filename is available (kilo.c lines
463-486): serialize, write; on success clear `dirty` and report the byte
count, otherwise report an I/O error.  The success of the
`open`/`ftruncate`/`write` sequence is the parameter `ok`. -/
def saveBody (st : EState) (ok : Bool) : EState :=
  let len := (editorRowsToString st).length
  if ok then
    { st with dirty := 0,
              statusmsg := setStatusMsg (toString len ++ " bytes written to disk") }
  else
    { st with statusmsg := setStatusMsg "Can't save! I/O error" }

/-- `editorSave` (kilo.c lines 452-487).  When there is no filename the
prompt is run; its result (the user's interaction) is the parameter
`pr`: on `none` (cancelled) the save is aborted with a status message. -/
def editorSave (pr : Option (List Nat)) (ok : Bool) (st : EState) : EState :=
  match st.filename with
  | none =>
    match pr with
    | none => { st with statusmsg := setStatusMsg "Save aborted" }
    | some f => saveBody { st with filename := some f } ok
  | some _ => saveBody st ok

/-- The status message of the quit warning (kilo.c lines 741-742); note
the two C string literals concatenate without a space after "changes.". -/
def quitWarningMsg (n : Int) : String :=
  "WARNING! File has unsaved changes.Press Ctrl-q " ++ toString n ++
    " more times to quit."

/-- The PAGE_UP / PAGE_DOWN branch of `editorProcessKeypress` (kilo.c
lines 756-769): snap `cy` to the top (resp. bottom, clamped to `numrows`)
of the viewport, then repeat the one-step vertical move `screenrows`
times (`int times = E.screenrows; while (times--) ...`). -/
def pageMove (st : EState) (c : Nat) : EState :=
  let st :=
    if c = PAGE_UP then { st with cy := st.rowoffset }
    else
      let cy := st.rowoffset + st.screenrows - 1
      { st with cy := if numrows st < cy then numrows st else cy }
  (fun s => editorMoveCursor s (if c = PAGE_UP then ARROW_UP else ARROW_DOWN))^[st.screenrows.toNat] st

/-- The `quit_times = QUIT_TIMES;` reset at the bottom of
`editorProcessKeypress` (kilo.c line 803), reached on every path except
the early `return` of the quit-warning branch. -/
def resetQuit (st : EState) : EState :=
  { st with quit_times := QUIT_TIMES }

/-- `editorProcessKeypress` (kilo.c lines 729-804) on an already decoded
key `c`.  `none` models `exit(0)`.  `pr` and `ok` parameterize the I/O
performed by `editorSave` (prompt result and write success).  Key codes:
13 = Enter, 17 = Ctrl-q, 19 = Ctrl-s, 8 = Ctrl-h, 12 = Ctrl-l,
27 = Escape, 127 = Backspace. -/
def editorProcessKeypress (pr : Option (List Nat)) (ok : Bool) (st : EState)
    (c : Nat) : Option EState :=
  if c = 13 then some (resetQuit (editorInsertNewLine st))
  else if c = 17 then
    if st.dirty ≠ 0 ∧ 0 < st.quit_times then
      some { st with statusmsg := setStatusMsg (quitWarningMsg st.quit_times),
                     quit_times := st.quit_times - 1 }
    else none
  else if c = 19 then some (resetQuit (editorSave pr ok st))
  else if c = PAGE_UP ∨ c = PAGE_DOWN then some (resetQuit (pageMove st c))
  else if c = HOME_KEY then some (resetQuit { st with cx := 0 })
  else if c = END_KEY then
    some (resetQuit
      (if st.cy < numrows st then { st with cx := rowLen st st.cy } else st))
  else if c = BACKSPACE ∨ c = 8 ∨ c = DEL_KEY then
    some (resetQuit
      (editorDelChar (if c = DEL_KEY then editorMoveCursor st ARROW_RIGHT else st)))
  else if c = 12 ∨ c = 27 then some (resetQuit st)
  else if c = ARROW_UP ∨ c = ARROW_DOWN ∨ c = ARROW_LEFT ∨ c = ARROW_RIGHT then
    some (resetQuit (editorMoveCursor st c))
  else some (resetQuit (editorInsertChar st c))

/-- Feeding a sequence of decoded keys to `editorProcessKeypress`; once
the process has exited (`none`) no further key is consumed. -/
def processKeys (pr : Option (List Nat)) (ok : Bool) (st : EState) :
    List Nat → Option EState
  | [] => some st
  | c :: rest =>
    match editorProcessKeypress pr ok st c with
    | none => none
    | some st' => processKeys pr ok st' rest

/-- `editorReadKey` (kilo.c lines 152-205) on a byte stream: returns the
decoded key and the unconsumed rest of the stream, or `none` when the
stream is empty (the first read blocks).  Later reads that find the
stream empty model the 0.1 s timeout and degrade to a bare escape.
Note line 194 compares `seq[0]` against the character `'0'` (byte 48). -/
def editorReadKey (input : List Nat) : Option (Nat × List Nat) :=
  match input with
  | [] => none
  | c :: rest =>
    if c = 27 then
      match rest with
      | [] => some (27, [])
      | [_] => some (27, [])
      | s0 :: s1 :: rest2 =>
        if s0 = 91 then
          if 48 ≤ s1 ∧ s1 ≤ 57 then
            match rest2 with
            | [] => some (27, [])
            | s2 :: rest3 =>
              if s2 = 126 then
                if s1 = 49 then some (HOME_KEY, rest3)
                else if s1 = 51 then some (DEL_KEY, rest3)
                else if s1 = 52 then some (END_KEY, rest3)
                else if s1 = 53 then some (PAGE_UP, rest3)
                else if s1 = 54 then some (PAGE_DOWN, rest3)
                else if s1 = 55 then some (HOME_KEY, rest3)
                else if s1 = 56 then some (END_KEY, rest3)
                else some (27, rest3)
              else some (27, rest3)
          else
            if s1 = 65 then some (ARROW_UP, rest2)
            else if s1 = 66 then some (ARROW_DOWN, rest2)
            else if s1 = 67 then some (ARROW_RIGHT, rest2)
            else if s1 = 68 then some (ARROW_LEFT, rest2)
            else if s1 = 70 then some (END_KEY, rest2)
            else if s1 = 72 then some (HOME_KEY, rest2)
            else some (27, rest2)
        else if s0 = 48 then
          if s1 = 72 then some (HOME_KEY, rest2)
          else if s1 = 70 then some (END_KEY, rest2)
          else some (27, rest2)
        else some (27, rest2)
    else some (c, rest)

/-- A write `buffer[i] = v` into the prompt's line buffer (kilo.c lines
664, 682-683).  The buffer is modelled by the list of cells written so
far plus the initial terminator; the only first-time write of a new cell
is at the current end, where the list grows by one (in C, `realloc`
doubling keeps capacity available). -/
def writeAt (l : List Nat) (i : Nat) (v : Nat) : List Nat :=
  if i < l.length then l.set i v else l ++ [v]

/-- Reading the prompt buffer as a C string: the bytes before the first
terminator. -/
def cString (l : List Nat) : List Nat :=
  l.takeWhile fun c => c ≠ 0

/-- The loop of `editorPrompt` (kilo.c lines 650-686) on a list of
decoded keys, carrying the cell array `arr` and `buffer_len`.  On
Backspace/Delete/Ctrl-H with non-empty input the code runs
`buffer[buffer_len--] = '\0'`: it writes the terminator at index
`buffer_len` (the old value, which already holds the terminator) and then
decrements — the last input byte itself is not overwritten.  `some r`
models a `return r`; `none` means the key list ran out with the loop
still going. -/
def promptLoop (arr : List Nat) (len : Nat) : List Nat → Option (Option (List Nat))
  | [] => none
  | c :: rest =>
    if c = DEL_KEY ∨ c = 8 ∨ c = BACKSPACE then
      if len ≠ 0 then promptLoop (writeAt arr len 0) (len - 1) rest
      else promptLoop arr len rest
    else if c = 27 then some none
    else if c = 13 then
      if len ≠ 0 then some (some (cString arr))
      else promptLoop arr len rest
    else if 32 ≤ c ∧ c ≤ 126 then
      let arr := writeAt arr len c
      let arr := writeAt arr (len + 1) 0
      promptLoop arr (len + 1) rest
    else promptLoop arr len rest

/-- `editorPrompt` (kilo.c lines 650-686): the buffer starts as a single
terminator cell with `buffer_len = 0`. -/
def editorPrompt (keys : List Nat) : Option (Option (List Nat)) :=
  promptLoop [0] 0 keys

/-- The render-cache invariant for one row: the cached `render` equals the
tab expansion `editorUpdateRow` of the raw bytes. -/
def rowOk (r : Erow) : Prop :=
  r.render = editorUpdateRow r.chars

/-- The render-cache invariant for the whole buffer. -/
def bufOk (st : EState) : Prop :=
  ∀ r ∈ st.rows, rowOk r

/-- The cursor-bounds invariant: `0 ≤ cy ≤ numrows` and
`0 ≤ cx ≤ size of row cy`, the size being 0 on the implicit empty line
`cy = numrows`. -/
def cursorInv (st : EState) : Prop :=
  0 ≤ st.cy ∧ st.cy ≤ numrows st ∧ 0 ≤ st.cx ∧ st.cx ≤ rowLen st st.cy

instance (r : Erow) : Decidable (rowOk r) := by
  unfold rowOk; infer_instance

instance (st : EState) : Decidable (bufOk st) := by
  unfold bufOk; exact List.decidableBAll _ _

instance (st : EState) : Decidable (cursorInv st) := by
  unfold cursorInv; infer_instance

/-- C1.  The claim is that loading a file and serializing reproduces its
content up to trailing-newline normalization.  The code violates it: line
435 of kilo.c calls `getline` once before the read loop and discards the
result, so the first line of every non-empty file is dropped — exactly
the defect announced by the comment on line 1 of kilo.c ("First line
chopped off when opening file").  On the file "a\nb\n" the loaded buffer
serializes to "b\n", not "a\nb\n". -/
theorem c1_open_then_serialize_drops_first_line :
    editorRowsToString (editorOpen (initState 22 80) [102] [97, 10, 98, 10]) =
      [98, 10] ∧
    [98, 10] ≠ [97, 10, 98, 10] := by
  decide

/-- C4, counterexample.  The claim says `insert_row` clamps `at` into
`[0, length]` and therefore always inserts one row and marks the buffer
dirty, even for negative `at`.  In the code the guard
`if (at < 0 || at > E.numrows) return;` (kilo.c line 289) makes the call
a no-op instead: at `at = -1` on the empty buffer nothing is inserted and
`dirty` stays 0. -/
theorem c4_counterexample_negative_insert_is_noop :
    (editorInsertRow (initState 22 80) (-1) [104]).rows.length ≠
      (initState 22 80).rows.length + 1 ∧
    (editorInsertRow (initState 22 80) (-1) [104]).dirty = 0 ∧
    (editorInsertRow (initState 22 80) 1 [104]).rows.length ≠
      (initState 22 80).rows.length + 1 := by
  decide

/-- C4, amended.  `insert_row(at, bytes)` inserts exactly one row and
marks the buffer dirty when `0 ≤ at ≤ buffer length`; out-of-range `at`
(negative or greater than the buffer length) is rejected and the call
leaves the state unchanged — ignored, not clamped. -/
theorem c4_insert_row_in_range_inserts_else_noop (st : EState) (i : Int)
    (s : List Nat) :
    (0 ≤ i → i ≤ numrows st →
      (editorInsertRow st i s).rows = st.rows.insertIdx i.toNat (mkRow s) ∧
      (editorInsertRow st i s).rows.length = st.rows.length + 1 ∧
      (editorInsertRow st i s).dirty = st.dirty + 1) ∧
    ((i < 0 ∨ numrows st < i) → editorInsertRow st i s = st) := by
  constructor
  · intro h0 h1
    simp only [numrows] at h1
    have hni : ¬(i < 0 ∨ numrows st < i) := by
      simp only [numrows]; omega
    simp only [editorInsertRow, if_neg hni]
    refine ⟨trivial, ?_, trivial⟩
    exact List.length_insertIdx _ _ (by omega)
  · intro h
    simp only [editorInsertRow, if_pos h]

/-- Witness for C4: on the empty initial buffer, inserting at 0 yields one
row, and inserting at -1 leaves the state unchanged. -/
theorem c4_insert_row_in_range_inserts_else_noop_witness :
    (editorInsertRow (initState 22 80) 0 [104]).rows.length = 1 ∧
    editorInsertRow (initState 22 80) (-1) [104] = initState 22 80 := by
  constructor
  · have h :=
      (c4_insert_row_in_range_inserts_else_noop (initState 22 80) 0 [104]).1
        (by decide) (by decide)
    rw [h.2.1]
    decide
  · exact (c4_insert_row_in_range_inserts_else_noop (initState 22 80) (-1)
      [104]).2 (by decide)

/-- C5.  The claim says the decoder maps ESC 'O' 'H' to Home and
ESC 'O' 'F' to End, like ESC '[' 'H' / ESC '[' 'F'.  The code violates
it: line 194 of kilo.c compares `seq[0]` with the character '0' (byte 48)
instead of 'O' (byte 79), so ESC 'O' 'H' and ESC 'O' 'F' fall through to
the bare-escape fallback, while the never-emitted sequences ESC '0' 'H' /
ESC '0' 'F' get the Home/End mapping. -/
theorem c5_escOH_yields_bare_escape_not_home :
    editorReadKey [27, 79, 72] = some (27, []) ∧
    editorReadKey [27, 79, 70] = some (27, []) ∧
    editorReadKey [27, 91, 72] = some (HOME_KEY, []) ∧
    editorReadKey [27, 91, 70] = some (END_KEY, []) ∧
    editorReadKey [27, 48, 72] = some (HOME_KEY, []) ∧
    editorReadKey [27, 48, 70] = some (END_KEY, []) ∧
    HOME_KEY ≠ 27 ∧ END_KEY ≠ 27 := by
  decide

/-- C6.  The claim says Backspace/Delete/Ctrl-H with non-empty input
removes exactly the last byte of the accumulated input, and Enter returns
the accumulated text.  The code violates it: line 664 of kilo.c runs
`buffer[buffer_len--] = '\0'`, writing the terminator at the old
`buffer_len` (where a terminator already sits) and only then
decrementing, so the last byte is never removed from the string.  Typing
'a', 'b', Backspace, Enter returns "ab", where the claim requires "a". -/
theorem c6_prompt_backspace_does_not_remove_last_byte :
    editorPrompt [97, 98, BACKSPACE, 13] = some (some [97, 98]) ∧
    [97, 98] ≠ [97] ∧
    editorPrompt [97, 27] = some none := by
  decide

/-- C3, counterexample.  The claim says that from a dirty buffer with the
counter at 3, the quit chord followed by exactly two more quit chords
exits the process.  In the code the third press still takes the warning
branch (counter goes 3 → 2 → 1 → 0, and only a press with the counter at
0 exits), so after three presses the process is still running. -/
theorem c3_counterexample_three_presses_do_not_exit :
    processKeys none true { initState 22 80 with dirty := 1 } [17, 17, 17] ≠
      none := by
  decide

/-- C3, amended.  From a dirty buffer with the confirmation counter at its
initial value 3, the quit chord (Ctrl-q, code 17) shows the warning naming
3 more times and leaves the counter at 2; pressing the quit chord exactly
three more times, with no other key in between, exits the process with
status 0 (the counter goes 3 → 2 → 1 → 0 with a warning each time, and
only a press finding the counter at 0 exits); pressing any printable key
in between resets the counter to 3. -/
theorem c3_quit_confirmation_flow (pr : Option (List Nat)) (ok : Bool)
    (st : EState) (hd : st.dirty ≠ 0) (hq : st.quit_times = 3) :
    editorProcessKeypress pr ok st 17 =
      some { st with statusmsg := setStatusMsg (quitWarningMsg 3),
                     quit_times := 2 } ∧
    processKeys pr ok st [17, 17, 17, 17] = none ∧
    ∀ c st', 32 ≤ c → c ≤ 126 →
      editorProcessKeypress pr ok st c = some st' →
        st'.quit_times = QUIT_TIMES := by
  refine ⟨?_, ?_, ?_⟩
  · simp [editorProcessKeypress, hd, hq]
  · simp [processKeys, editorProcessKeypress, hd, hq]
  · intro c st' h1 h2 hkey
    have e13 : ¬(c = 13) := by omega
    have e17 : ¬(c = 17) := by omega
    have e19 : ¬(c = 19) := by omega
    have ePag : ¬(c = PAGE_UP ∨ c = PAGE_DOWN) := by
      simp only [PAGE_UP, PAGE_DOWN]; omega
    have eHome : ¬(c = HOME_KEY) := by simp only [HOME_KEY]; omega
    have eEnd : ¬(c = END_KEY) := by simp only [END_KEY]; omega
    have eDel : ¬(c = BACKSPACE ∨ c = 8 ∨ c = DEL_KEY) := by
      simp only [BACKSPACE, DEL_KEY]; omega
    have eEsc : ¬(c = 12 ∨ c = 27) := by omega
    have eArr : ¬(c = ARROW_UP ∨ c = ARROW_DOWN ∨ c = ARROW_LEFT ∨ c = ARROW_RIGHT) := by
      simp only [ARROW_UP, ARROW_DOWN, ARROW_LEFT, ARROW_RIGHT]; omega
    unfold editorProcessKeypress at hkey
    rw [if_neg e13, if_neg e17, if_neg e19, if_neg ePag, if_neg eHome,
      if_neg eEnd, if_neg eDel, if_neg eEsc, if_neg eArr] at hkey
    injection hkey with h
    subst h
    rfl

/-- Witness for C3 on a concrete dirty buffer: four quit-chord presses
exit the process. -/
theorem c3_quit_confirmation_flow_witness :
    ({ initState 22 80 with dirty := 1 } : EState).dirty ≠ 0 ∧
    processKeys none true { initState 22 80 with dirty := 1 } [17, 17, 17, 17] =
      none :=
  ⟨by decide, (c3_quit_confirmation_flow none true _ (by decide) (by decide)).2.1⟩

lemma insertIdx_eq_take_cons_drop {α : Type} (l : List α) (n : Nat) (a : α)
    (h : n ≤ l.length) :
    l.insertIdx n a = l.take n ++ a :: l.drop n := by
  induction l generalizing n with
  | nil =>
    simp only [List.length_nil, Nat.le_zero] at h
    subst h
    simp
  | cons x xs ih =>
    cases n with
    | zero => simp
    | succ n =>
      simp only [List.insertIdx_succ_cons, List.take_succ_cons,
        List.drop_succ_cons, List.cons_append, List.cons.injEq, true_and]
      exact ih n (by simpa using h)

lemma set_insertIdx_succ {α : Type} (l : List α) (n : Nat) (a b : α)
    (h : n < l.length) :
    (l.insertIdx (n + 1) a).set n b = l.take n ++ b :: a :: l.drop (n + 1) := by
  induction l generalizing n with
  | nil => simp at h
  | cons x xs ih =>
    cases n with
    | zero => simp
    | succ n =>
      simp only [List.insertIdx_succ_cons, List.set_cons_succ,
        List.take_succ_cons, List.drop_succ_cons, List.cons_append,
        List.cons.injEq, true_and]
      exact ih n (by simpa using h)

lemma set_append_singleton {α : Type} (l : List α) (x y : α) :
    (l ++ [x]).set l.length y = l ++ [y] := by
  induction l with
  | nil => rfl
  | cons a as ih => simp [ih]

lemma getD_concat_length {α : Type} (l : List α) (x d : α) :
    (l ++ [x]).getD l.length d = x := by
  induction l with
  | nil => rfl
  | cons a as ih => simpa using ih

lemma rowAt_natCast (rows : List Erow) (n : Nat) (h : n < rows.length) :
    rowAt rows (n : Int) = rows[n] := by
  simp only [rowAt, Int.natCast_nonneg, if_true, Int.toNat_natCast]
  exact List.getD_eq_getElem _ _ h

lemma mkRow_of_rowOk {r : Erow} (h : rowOk r) : mkRow r.chars = r := by
  cases r
  simp only [mkRow, Erow.mk.injEq, true_and]
  exact h.symm

/-- C9.  With the cursor at a valid position of row `cy` and the render
caches intact, Enter replaces row `cy` by its first `cx` bytes followed
by a new row holding the remaining bytes (at column 0 this inserts one
empty row before the untouched current row), and the cursor moves to the
start of the new row: `cy + 1`, column 0. -/
theorem c9_enter_splits_row_at_cursor (st : EState)
    (h0 : 0 ≤ st.cy) (h1 : st.cy < numrows st)
    (h2 : 0 ≤ st.cx) (h3 : st.cx ≤ rowLen st st.cy)
    (hb : bufOk st) :
    (editorInsertNewLine st).rows =
      st.rows.take st.cy.toNat ++
        mkRow ((rowAt st.rows st.cy).chars.take st.cx.toNat) ::
        mkRow ((rowAt st.rows st.cy).chars.drop st.cx.toNat) ::
        st.rows.drop (st.cy.toNat + 1) ∧
    (editorInsertNewLine st).cy = st.cy + 1 ∧
    (editorInsertNewLine st).cx = 0 := by
  obtain ⟨n, hn⟩ : ∃ n : Nat, st.cy = (n : Int) := ⟨st.cy.toNat, by omega⟩
  have hnlen : n < st.rows.length := by
    simp only [numrows] at h1; omega
  have hrow : rowAt st.rows (n : Int) = st.rows[n] := rowAt_natCast _ _ hnlen
  have hok : rowOk st.rows[n] := hb _ (st.rows.getElem_mem hnlen)
  by_cases hcx : st.cx = 0
  · -- column 0: one empty row is inserted before row cy
    have hni : ¬(st.cy < 0 ∨ numrows st < st.cy) := by omega
    simp only [editorInsertNewLine, if_pos hcx, editorInsertRow, if_neg hni]
    refine ⟨?_, trivial, trivial⟩
    simp only [hcx, hn, Int.toNat_natCast, Int.toNat_zero, List.take_zero,
      List.drop_zero]
    rw [insertIdx_eq_take_cons_drop _ _ _ (le_of_lt hnlen),
      List.drop_eq_getElem_cons hnlen, hrow, mkRow_of_rowOk hok]
  · -- the row is split at cx
    have hni : ¬(st.cy + 1 < 0 ∨ numrows st < st.cy + 1) := by
      simp only [numrows] at h1 ⊢; omega
    simp only [editorInsertNewLine, if_neg hcx, editorInsertRow, if_neg hni]
    refine ⟨?_, trivial, trivial⟩
    simp only [setRow, hn, Int.toNat_natCast, Int.natCast_nonneg, if_true, hrow]
    have hcast : ((n : Int) + 1).toNat = n + 1 := by omega
    rw [hcast]
    have hlen : (st.rows.insertIdx (n + 1)
        (mkRow (List.drop st.cx.toNat st.rows[n].chars))).length =
        st.rows.length + 1 :=
      List.length_insertIdx _ _ (by omega)
    have hAt : rowAt (st.rows.insertIdx (n + 1)
        (mkRow (List.drop st.cx.toNat st.rows[n].chars))) (n : Int) =
        st.rows[n] := by
      rw [rowAt_natCast _ _ (by rw [hlen]; omega)]
      exact List.getElem_insertIdx_of_lt _ _ _ _ (Nat.lt_succ_self n) hnlen
    rw [hAt, set_insertIdx_succ _ _ _ _ hnlen]
    rfl

/-- Witness for C9: the scenario of the claim — buffer ["hello",
"world"], cursor at (cx = 5, cy = 0), Enter yields ["hello", "",
"world"] with the cursor at (0, 1). -/
theorem c9_enter_splits_row_at_cursor_witness :
    (editorInsertNewLine { initState 22 80 with
        rows := [mkRow [104, 101, 108, 108, 111], mkRow [119, 111, 114, 108, 100]],
        cx := 5, cy := 0 }).rows.map Erow.chars =
      [[104, 101, 108, 108, 111], [], [119, 111, 114, 108, 100]] ∧
    (editorInsertNewLine { initState 22 80 with
        rows := [mkRow [104, 101, 108, 108, 111], mkRow [119, 111, 114, 108, 100]],
        cx := 5, cy := 0 }).cy = 1 ∧
    (editorInsertNewLine { initState 22 80 with
        rows := [mkRow [104, 101, 108, 108, 111], mkRow [119, 111, 114, 108, 100]],
        cx := 5, cy := 0 }).cx = 0 := by
  have h := c9_enter_splits_row_at_cursor
    { initState 22 80 with
        rows := [mkRow [104, 101, 108, 108, 111], mkRow [119, 111, 114, 108, 100]],
        cx := 5, cy := 0 }
    (by decide) (by decide) (by decide) (by decide) (by decide)
  refine ⟨?_, ?_, h.2.2⟩
  · rw [h.1]; decide
  · rw [h.2.1]; decide

/-- C10.  With the cursor on the implicit line past end of file
(`cy = numrows`, hence `cx = 0` by the cursor invariant), inserting a
character first appends a new empty row and then inserts the character
into it: the buffer grows by exactly one row whose sole byte is the
character, and `cx` advances to 1. -/
theorem c10_insert_char_on_phantom_line (st : EState) (c : Nat)
    (hcy : st.cy = numrows st) (hcx : st.cx = 0) :
    (editorInsertChar st c).rows = st.rows ++ [mkRow [c]] ∧
    (editorInsertChar st c).rows.length = st.rows.length + 1 ∧
    (editorInsertChar st c).cx = 1 := by
  have hnn : (0 : Int) ≤ numrows st := Int.natCast_nonneg _
  have e1 : editorInsertRow st (numrows st) [] =
      { st with rows := st.rows ++ [mkRow []], dirty := st.dirty + 1 } := by
    unfold editorInsertRow
    rw [if_neg (by omega)]
    rw [show (numrows st).toNat = st.rows.length from by simp [numrows],
      List.insertIdx_length_self]
  have hrowAt : rowAt (st.rows ++ [mkRow []]) st.cy = mkRow [] := by
    unfold rowAt
    rw [if_pos (by omega)]
    rw [show st.cy.toNat = st.rows.length from by simp [hcy, numrows]]
    exact getD_concat_length _ _ _
  have hsetr : setRow (st.rows ++ [mkRow []]) st.cy (mkRow [c]) =
      st.rows ++ [mkRow [c]] := by
    unfold setRow
    rw [if_pos (by omega)]
    rw [show st.cy.toNat = st.rows.length from by simp [hcy, numrows]]
    exact set_append_singleton _ _ _
  have e2 : editorRowInsertChar
      { st with rows := st.rows ++ [mkRow []], dirty := st.dirty + 1 }
      st.cy st.cx c =
      { st with rows := st.rows ++ [mkRow [c]], dirty := st.dirty + 1 + 1 } := by
    unfold editorRowInsertChar
    dsimp only
    rw [hrowAt, hcx]
    rw [show (mkRow []).chars = [] from rfl]
    rw [if_neg (by simp)]
    rw [show ((0 : Int).toNat) = 0 from rfl, List.insertIdx_zero]
    rw [show (⟨[c], editorUpdateRow [c]⟩ : Erow) = mkRow [c] from rfl]
    rw [hsetr]
  have efin : editorInsertChar st c =
      { st with rows := st.rows ++ [mkRow [c]], dirty := st.dirty + 1 + 1,
                cx := st.cx + 1 } := by
    unfold editorInsertChar
    rw [if_pos hcy, e1]
    dsimp only
    rw [e2]
  rw [efin]
  refine ⟨rfl, by simp, by simp [hcx]⟩

/-- Witness for C10: on the buffer ["h"] with the cursor on the implicit
line (cy = 1), inserting 'z' yields ["h", "z"] with cx = 1. -/
theorem c10_insert_char_on_phantom_line_witness :
    (editorInsertChar { initState 22 80 with rows := [mkRow [104]], cy := 1 }
        122).rows.map Erow.chars = [[104], [122]] ∧
    (editorInsertChar { initState 22 80 with rows := [mkRow [104]], cy := 1 }
        122).cx = 1 := by
  have h := c10_insert_char_on_phantom_line
    { initState 22 80 with rows := [mkRow [104]], cy := 1 } 122
    (by decide) (by decide)
  refine ⟨?_, h.2.2⟩
  rw [h.1]
  decide

/-- C7.  For every cursor position and scroll offsets, with screen
dimensions at least 1, the per-frame scroll step leaves the cursor inside
the visible window: `rowoffset ≤ cy < rowoffset + screenrows` and
`coloffset ≤ rx < coloffset + screencols`. -/
theorem c7_scroll_keeps_cursor_in_window (st : EState)
    (hr : 1 ≤ st.screenrows) (hc : 1 ≤ st.screencols) :
    (editorScroll st).rowoffset ≤ (editorScroll st).cy ∧
    (editorScroll st).cy < (editorScroll st).rowoffset + (editorScroll st).screenrows ∧
    (editorScroll st).coloffset ≤ (editorScroll st).rx ∧
    (editorScroll st).rx < (editorScroll st).coloffset + (editorScroll st).screencols := by
  unfold editorScroll
  dsimp only
  split_ifs <;> refine ⟨?_, ?_, ?_, ?_⟩ <;> dsimp only <;> omega

/-- Witness for C7: a cursor far below and right of the viewport is
scrolled back into it. -/
theorem c7_scroll_keeps_cursor_in_window_witness :
    (editorScroll { initState 5 10 with cy := 100, cx := 42 }).rowoffset ≤
      (editorScroll { initState 5 10 with cy := 100, cx := 42 }).cy ∧
    (editorScroll { initState 5 10 with cy := 100, cx := 42 }).cy <
      (editorScroll { initState 5 10 with cy := 100, cx := 42 }).rowoffset +
        (editorScroll { initState 5 10 with cy := 100, cx := 42 }).screenrows ∧
    (editorScroll { initState 5 10 with cy := 100, cx := 42 }).coloffset ≤
      (editorScroll { initState 5 10 with cy := 100, cx := 42 }).rx ∧
    (editorScroll { initState 5 10 with cy := 100, cx := 42 }).rx <
      (editorScroll { initState 5 10 with cy := 100, cx := 42 }).coloffset +
        (editorScroll { initState 5 10 with cy := 100, cx := 42 }).screencols :=
  c7_scroll_keeps_cursor_in_window { initState 5 10 with cy := 100, cx := 42 }
    (by decide) (by decide)

lemma bufOk_rows (s s' : EState) (hr : s'.rows = s.rows) (h : bufOk s) :
    bufOk s' := by
  unfold bufOk at *
  rw [hr]
  exact h

lemma rowsOk_setRow {rows : List Erow} {i : Int} {r0 : Erow}
    (h : ∀ r ∈ rows, rowOk r) (h0 : rowOk r0) :
    ∀ r ∈ setRow rows i r0, rowOk r := by
  intro r hr
  unfold setRow at hr
  split at hr
  · rcases List.mem_or_eq_of_mem_set hr with h1 | h1
    · exact h r h1
    · subst h1; exact h0
  · exact h r hr

lemma rowOk_mkRow (s : List Nat) : rowOk (mkRow s) := rfl

lemma bufOk_editorInsertRow (st : EState) (i : Int) (s : List Nat)
    (h : bufOk st) : bufOk (editorInsertRow st i s) := by
  unfold editorInsertRow
  split
  · exact h
  · rename_i hc
    intro r hr
    dsimp only at hr
    have hle : i.toNat ≤ st.rows.length := by
      simp only [numrows] at hc; omega
    rcases (List.mem_insertIdx hle).1 hr with h1 | h1
    · subst h1; exact rowOk_mkRow s
    · exact h r h1

lemma bufOk_editorDelRow (st : EState) (i : Int) (h : bufOk st) :
    bufOk (editorDelRow st i) := by
  unfold editorDelRow
  split
  · exact h
  · intro r hr
    dsimp only at hr
    exact h r (List.mem_of_mem_eraseIdx hr)

lemma bufOk_editorRowInsertChar (st : EState) (ri j : Int) (c : Nat)
    (h : bufOk st) : bufOk (editorRowInsertChar st ri j c) := by
  unfold editorRowInsertChar
  intro r hr
  dsimp only at hr
  exact rowsOk_setRow h (rowOk_mkRow _) r hr

lemma bufOk_editorRowAppendString (st : EState) (ri : Int) (s : List Nat)
    (h : bufOk st) : bufOk (editorRowAppendString st ri s) := by
  unfold editorRowAppendString
  intro r hr
  dsimp only at hr
  exact rowsOk_setRow h (rowOk_mkRow _) r hr

lemma bufOk_editorRowDelChar (st : EState) (ri j : Int) (h : bufOk st) :
    bufOk (editorRowDelChar st ri j) := by
  unfold editorRowDelChar
  dsimp only
  split
  · exact h
  · intro r hr
    dsimp only at hr
    exact rowsOk_setRow h (rowOk_mkRow _) r hr

lemma bufOk_editorInsertChar (st : EState) (c : Nat) (h : bufOk st) :
    bufOk (editorInsertChar st c) := by
  unfold editorInsertChar
  dsimp only
  apply bufOk_rows _ _ rfl
  apply bufOk_editorRowInsertChar
  split
  · exact bufOk_editorInsertRow _ _ _ h
  · exact h

lemma bufOk_editorDelChar (st : EState) (h : bufOk st) :
    bufOk (editorDelChar st) := by
  unfold editorDelChar
  split
  · exact h
  · split
    · exact h
    · dsimp only
      split
      · apply bufOk_rows _ _ rfl
        exact bufOk_editorRowDelChar _ _ _ h
      · apply bufOk_rows _ _ rfl
        apply bufOk_editorDelRow
        apply bufOk_editorRowAppendString
        exact bufOk_rows _ st rfl h

lemma bufOk_editorInsertNewLine (st : EState) (h : bufOk st) :
    bufOk (editorInsertNewLine st) := by
  unfold editorInsertNewLine
  apply bufOk_rows _ _ rfl
  split
  · exact bufOk_editorInsertRow _ _ _ h
  · dsimp only
    intro r hr
    exact rowsOk_setRow (bufOk_editorInsertRow _ _ _ h) (rowOk_mkRow _) r hr

/-- C2.  The render-cache invariant `render = expand_tabs(raw)` (with
8-column tab stops, as computed by `editorUpdateRow`) holds for every row
of the buffer after each mutating buffer operation returns: row
insertion, row deletion, character insertion (row-level and
editor-level), character deletion (row-level and editor-level), string
append, and Enter's row split. -/
theorem c2_render_cache_invariant_preserved (st : EState) (h : bufOk st) :
    (∀ i s, bufOk (editorInsertRow st i s)) ∧
    (∀ i, bufOk (editorDelRow st i)) ∧
    (∀ c, bufOk (editorInsertChar st c)) ∧
    bufOk (editorDelChar st) ∧
    (∀ ri s, bufOk (editorRowAppendString st ri s)) ∧
    (∀ ri j c, bufOk (editorRowInsertChar st ri j c)) ∧
    (∀ ri j, bufOk (editorRowDelChar st ri j)) ∧
    bufOk (editorInsertNewLine st) :=
  ⟨fun i s => bufOk_editorInsertRow st i s h,
   fun i => bufOk_editorDelRow st i h,
   fun c => bufOk_editorInsertChar st c h,
   bufOk_editorDelChar st h,
   fun ri s => bufOk_editorRowAppendString st ri s h,
   fun ri j c => bufOk_editorRowInsertChar st ri j c h,
   fun ri j => bufOk_editorRowDelChar st ri j h,
   bufOk_editorInsertNewLine st h⟩

/-- Witness for C2 on a one-row buffer containing a tab byte. -/
theorem c2_render_cache_invariant_preserved_witness :
    bufOk { initState 22 80 with rows := [mkRow [97, 9, 98]] } ∧
    bufOk (editorInsertChar { initState 22 80 with rows := [mkRow [97, 9, 98]] } 9) ∧
    bufOk (editorInsertNewLine { initState 22 80 with rows := [mkRow [97, 9, 98]] }) :=
  ⟨by decide,
   (c2_render_cache_invariant_preserved _ (by decide)).2.2.1 9,
   (c2_render_cache_invariant_preserved _ (by decide)).2.2.2.2.2.2.2⟩

lemma length_setRow (rows : List Erow) (i : Int) (r : Erow) :
    (setRow rows i r).length = rows.length := by
  unfold setRow
  split <;> simp

lemma rowAt_setRow_self (rows : List Erow) (i : Int) (r : Erow)
    (h0 : 0 ≤ i) (h : i.toNat < rows.length) :
    rowAt (setRow rows i r) i = r := by
  unfold rowAt setRow
  rw [if_pos h0, if_pos h0]
  rw [List.getD_eq_getElem _ _ (by simpa using h)]
  exact List.getElem_set_self _

lemma rowAt_setRow_of_lt (rows : List Erow) (i j : Int) (r : Erow)
    (h0 : 0 ≤ j) (hj : j < i) :
    rowAt (setRow rows i r) j = rowAt rows j := by
  unfold rowAt setRow
  rw [if_pos h0, if_pos h0]
  split
  · rename_i hi
    by_cases hlen : j.toNat < rows.length
    · rw [List.getD_eq_getElem _ _ (by simpa using hlen),
        List.getD_eq_getElem _ _ hlen]
      rw [List.getElem_set_ne (by omega)]
    · rw [List.getD_eq_default _ _ (by simpa using hlen),
        List.getD_eq_default _ _ (by omega)]
  · rfl

lemma cursorInv_editorMoveCursor (st : EState) (key : Nat)
    (h0 : 0 ≤ st.cy) (h1 : st.cy ≤ numrows st) (h2 : 0 ≤ st.cx) :
    cursorInv (editorMoveCursor st key) := by
  unfold editorMoveCursor
  simp only [numrows, rowLen] at h1 ⊢
  split_ifs <;> (simp only [cursorInv, numrows, rowLen]; (try dsimp only at *); omega)

lemma cursorInv_mk (s : EState) (hcy0 : 0 ≤ s.cy)
    (hcy1 : s.cy ≤ (s.rows.length : Int)) (hcx0 : 0 ≤ s.cx)
    (hcx1 : s.cx ≤ ((rowAt s.rows s.cy).chars.length : Int)) : cursorInv s :=
  ⟨hcy0, hcy1, hcx0, hcx1⟩

lemma rowAt_eraseIdx_of_lt (rows : List Erow) (i : Int) (n : Nat)
    (h0 : 0 ≤ i) (hin : i.toNat < n) (hn : n < rows.length) :
    rowAt (rows.eraseIdx n) i = rowAt rows i := by
  unfold rowAt
  rw [if_pos h0, if_pos h0]
  have hlen : (rows.eraseIdx n).length = rows.length - 1 :=
    List.length_eraseIdx_of_lt hn
  have hi : i.toNat < (rows.eraseIdx n).length := by omega
  rw [List.getD_eq_getElem _ _ hi, List.getD_eq_getElem _ _ (by omega)]
  exact List.getElem_eraseIdx_of_lt _ _ _ hi hin

lemma cursorInv_editorDelChar (st : EState) (h : cursorInv st) :
    cursorInv (editorDelChar st) := by
  obtain ⟨h0, h1, h2, h3⟩ := h
  unfold rowLen at h3
  simp only [numrows] at h1
  unfold editorDelChar
  split
  · exact ⟨h0, by simpa [numrows] using h1, h2, h3⟩
  · rename_i hcy
    simp only [numrows] at hcy
    split
    · exact ⟨h0, by simpa [numrows] using h1, h2, h3⟩
    · rename_i hzero
      have hcy' : st.cy < (st.rows.length : Int) := lt_of_le_of_ne h1 hcy
      have hn : st.cy.toNat < st.rows.length := by omega
      split
      · -- cx > 0: delete the byte left of the cursor
        rename_i hpos
        unfold editorRowDelChar
        dsimp only
        split
        · exact cursorInv_mk _ h0 h1 (by dsimp only; omega) (by dsimp only; omega)
        · rename_i hguard
          refine cursorInv_mk _ h0 ?_ (by dsimp only; omega) ?_ <;> (try dsimp only)
          · rw [length_setRow]
            exact h1
          · rw [rowAt_setRow_self _ _ _ h0 hn]
            dsimp only
            rw [List.length_eraseIdx_of_lt (by omega)]
            push_cast
            omega
      · -- cx = 0 and cy > 0: join onto the previous row
        rename_i hpos
        have hy : 0 < st.cy := by
          rcases lt_or_eq_of_le h0 with hlt | heq
          · exact hlt
          · exact absurd ⟨by omega, heq.symm⟩ hzero
        have hprev : (0 : Int) ≤ st.cy - 1 := by omega
        have hpn : (st.cy - 1).toNat < st.rows.length := by omega
        unfold editorRowAppendString editorDelRow
        dsimp only
        split
        · rename_i hbad
          exfalso
          simp only [numrows] at hbad
          (try dsimp only at hbad)
          rw [length_setRow] at hbad
          omega
        · refine cursorInv_mk _ (by dsimp only; omega) ?_ ?_ ?_ <;> (try dsimp only)
          · rw [List.length_eraseIdx_of_lt (by rw [length_setRow]; exact hn),
              length_setRow]
            push_cast
            omega
          · unfold rowLen
            positivity
          · rw [rowAt_eraseIdx_of_lt _ _ _ hprev (by omega)
              (by rw [length_setRow]; exact hn)]
            rw [rowAt_setRow_self _ _ _ hprev hpn]
            dsimp only
            rw [List.length_append]
            unfold rowLen
            push_cast
            omega

lemma cursorInv_congr (s' s : EState) (hcx : s'.cx = s.cx)
    (hcy : s'.cy = s.cy) (hrows : s'.rows = s.rows) (h : cursorInv s) :
    cursorInv s' := by
  obtain ⟨i1, i2, i3, i4⟩ := h
  refine cursorInv_mk _ ?_ ?_ ?_ ?_
  · rw [hcy]; exact i1
  · rw [hcy, hrows]; exact i2
  · rw [hcx]; exact i3
  · rw [hcx, hcy, hrows]; exact i4

lemma cursorInv_editorInsertChar (st : EState) (c : Nat) (h : cursorInv st) :
    cursorInv (editorInsertChar st c) := by
  obtain ⟨h0, h1, h2, h3⟩ := h
  unfold rowLen at h3
  simp only [numrows] at h1
  by_cases hcy : st.cy = numrows st
  · -- on the phantom line: a row is appended first
    have hlen0 : (rowAt st.rows st.cy).chars.length = 0 := by
      unfold rowAt
      rw [if_pos h0, List.getD_eq_default _ _ (by simp only [numrows] at hcy; omega)]
      rfl
    have hcx : st.cx = 0 := by omega
    unfold editorInsertChar
    rw [if_pos hcy]
    unfold editorInsertRow
    rw [if_neg (by simp only [numrows]; omega)]
    unfold editorRowInsertChar
    dsimp only
    have hins : st.rows.insertIdx (numrows st).toNat (mkRow []) =
        st.rows ++ [mkRow []] := by
      rw [show (numrows st).toNat = st.rows.length from by simp [numrows],
        List.insertIdx_length_self]
    rw [hins]
    have hr : rowAt (st.rows ++ [mkRow []]) st.cy = mkRow [] := by
      unfold rowAt
      rw [if_pos h0,
        show st.cy.toNat = st.rows.length from by simp only [numrows] at hcy; omega]
      exact getD_concat_length _ _ _
    rw [hr, hcx, show (mkRow []).chars = [] from rfl]
    rw [if_neg (by simp)]
    rw [show ((0 : Int)).toNat = 0 from rfl, List.insertIdx_zero]
    refine cursorInv_mk _ h0 ?_ (by (try dsimp only); omega) ?_ <;> (try dsimp only)
    · rw [length_setRow, List.length_append]
      push_cast
      omega
    · rw [rowAt_setRow_self _ _ _ h0
        (by rw [List.length_append]; simp only [numrows] at hcy; simp; omega)]
      dsimp only
      norm_num
  · -- inside the buffer: insert into row cy
    have hcy' : st.cy < (st.rows.length : Int) := by
      simp only [numrows] at hcy; omega
    have hn : st.cy.toNat < st.rows.length := by omega
    unfold editorInsertChar
    rw [if_neg hcy]
    unfold editorRowInsertChar
    dsimp only
    rw [if_neg (by omega)]
    refine cursorInv_mk _ h0 ?_ (by (try dsimp only); omega) ?_ <;> (try dsimp only)
    · rw [length_setRow]
      exact h1
    · rw [rowAt_setRow_self _ _ _ h0 hn]
      dsimp only
      rw [List.length_insertIdx _ _ (by omega)]
      push_cast
      omega

lemma cursorInv_editorInsertNewLine (st : EState) (h : cursorInv st) :
    cursorInv (editorInsertNewLine st) := by
  obtain ⟨h0, h1, h2, h3⟩ := h
  unfold rowLen at h3
  simp only [numrows] at h1
  unfold editorInsertNewLine
  by_cases hcx : st.cx = 0
  · rw [if_pos hcx]
    unfold editorInsertRow
    rw [if_neg (by simp only [numrows]; omega)]
    refine cursorInv_mk _ (by (try dsimp only); omega) ?_ (by (try dsimp only); omega) ?_ <;>
      (try dsimp only)
    · rw [List.length_insertIdx _ _ (by omega)]
      push_cast
      omega
    · positivity
  · rw [if_neg hcx]
    have hlt : st.cy < (st.rows.length : Int) := by
      by_contra hge
      have : (rowAt st.rows st.cy).chars.length = 0 := by
        unfold rowAt
        rw [if_pos h0, List.getD_eq_default _ _ (by omega)]
        rfl
      omega
    have hn : st.cy.toNat < st.rows.length := by omega
    unfold editorInsertRow
    dsimp only
    rw [if_neg (by simp only [numrows]; omega)]
    refine cursorInv_mk _ (by (try dsimp only); omega) ?_ (by (try dsimp only); omega) ?_ <;>
      (try dsimp only)
    · rw [length_setRow, List.length_insertIdx _ _ (by omega)]
      push_cast
      omega
    · positivity

lemma cursorInv_iterate_move (k : Nat) (key : Nat) :
    ∀ s : EState, 0 ≤ s.cy → s.cy ≤ numrows s → 0 ≤ s.cx →
      cursorInv ((fun s => editorMoveCursor s key)^[k + 1] s) := by
  induction k with
  | zero =>
    intro s a b c
    simpa using cursorInv_editorMoveCursor s key a b c
  | succ k ih =>
    intro s a b c
    rw [Function.iterate_succ_apply]
    obtain ⟨i1, i2, i3, _⟩ := cursorInv_editorMoveCursor s key a b c
    exact ih _ i1 i2 i3

lemma cursorInv_pageMove (st : EState) (c : Nat) (h : cursorInv st)
    (hr0 : 0 ≤ st.rowoffset) (hr1 : st.rowoffset ≤ numrows st)
    (hsr : 1 ≤ st.screenrows) :
    cursorInv (pageMove st c) := by
  obtain ⟨h0, h1, h2, h3⟩ := h
  simp only [numrows] at h1 hr1
  obtain ⟨m, hm⟩ : ∃ m, st.screenrows.toNat = m + 1 :=
    ⟨st.screenrows.toNat - 1, by omega⟩
  unfold pageMove
  dsimp only
  split
  · rw [show ({ st with cy := st.rowoffset } : EState).screenrows.toNat = m + 1
      from hm]
    exact cursorInv_iterate_move m _ _ (by (try dsimp only); omega)
      (by simp only [numrows]; (try dsimp only); omega) (by (try dsimp only); omega)
  · split
    · rw [show ({ st with cy := numrows st } : EState).screenrows.toNat = m + 1
        from hm]
      exact cursorInv_iterate_move m _ _
        (by simp only [numrows]; (try dsimp only); omega)
        (by simp only [numrows]; (try dsimp only); omega) (by (try dsimp only); omega)
    · rw [show ({ st with cy := st.rowoffset + st.screenrows - 1 } : EState).screenrows.toNat = m + 1
        from hm]
      rename_i hnlt
      simp only [numrows] at hnlt
      exact cursorInv_iterate_move m _ _ (by (try dsimp only); omega)
        (by simp only [numrows]; (try dsimp only); omega) (by (try dsimp only); omega)

lemma editorSave_fields (pr : Option (List Nat)) (ok : Bool) (st : EState) :
    (editorSave pr ok st).cx = st.cx ∧ (editorSave pr ok st).cy = st.cy ∧
    (editorSave pr ok st).rows = st.rows := by
  unfold editorSave saveBody
  rcases st.filename with _ | f
  · rcases pr with _ | p
    · exact ⟨rfl, rfl, rfl⟩
    · dsimp only
      split <;> exact ⟨rfl, rfl, rfl⟩
  · dsimp only
    split <;> exact ⟨rfl, rfl, rfl⟩

set_option maxRecDepth 4000

/-- C8.  Every key dispatch preserves the cursor-bounds invariant
`0 ≤ cy ≤ numrows` and `0 ≤ cx ≤ size of row cy` (0 on the implicit line
`cy = numrows`).  The extra hypotheses hold in every reachable state:
`0 ≤ rowoffset ≤ numrows` is re-established by `editorScroll`, which runs
(from `editorRefreshScreen`) before every keypress, and `screenrows ≥ 1`
holds on any usable terminal.  `some st'` covers every non-exiting
dispatch; `exit(0)` is the `none` case. -/
theorem c8_keypress_preserves_cursor_bounds (pr : Option (List Nat))
    (ok : Bool) (st : EState) (c : Nat)
    (st' : EState) (hinv : cursorInv st)
    (hr0 : 0 ≤ st.rowoffset) (hr1 : st.rowoffset ≤ numrows st)
    (hsr : 1 ≤ st.screenrows)
    (hkey : editorProcessKeypress pr ok st c = some st') :
    cursorInv st' := by
  unfold editorProcessKeypress at hkey
  split_ifs at hkey
  all_goals (try (injection hkey with he))
  all_goals (try subst he)
  · -- Enter
    exact cursorInv_editorInsertNewLine st hinv
  · -- quit chord with warning
    generalize setStatusMsg (quitWarningMsg st.quit_times) = msg
    exact ⟨hinv.1, hinv.2.1, hinv.2.2.1, hinv.2.2.2⟩
  · -- Ctrl-s
    obtain ⟨f1, f2, f3⟩ := editorSave_fields pr ok st
    exact cursorInv_congr _ _ f1 f2 f3 hinv
  · -- PageUp / PageDown
    exact cursorInv_pageMove st c hinv hr0 hr1 hsr
  · -- Home
    exact ⟨hinv.1, hinv.2.1, le_refl 0, Int.natCast_nonneg _⟩
  · -- End, cy < numrows
    exact ⟨hinv.1, hinv.2.1, Int.natCast_nonneg _, le_refl _⟩
  · -- End, cy on the phantom line
    exact hinv
  · -- Delete: move right, then backspace
    exact cursorInv_editorDelChar _
      (cursorInv_editorMoveCursor st ARROW_RIGHT hinv.1 hinv.2.1 hinv.2.2.1)
  · -- Backspace / Ctrl-h
    exact cursorInv_editorDelChar st hinv
  · -- Ctrl-l / Escape
    exact hinv
  · -- arrow keys
    exact cursorInv_editorMoveCursor st c hinv.1 hinv.2.1 hinv.2.2.1
  · -- any other byte: insert it
    exact cursorInv_editorInsertChar st c hinv

/-- Witness for C8: Arrow-Right on the one-row buffer ["h"] moves the
cursor to cx = 1 and the invariant still holds. -/
theorem c8_keypress_preserves_cursor_bounds_witness :
    cursorInv { initState 5 10 with rows := [mkRow [104]], cx := 1 } :=
  c8_keypress_preserves_cursor_bounds none true
    { initState 5 10 with rows := [mkRow [104]] } ARROW_RIGHT
    { initState 5 10 with rows := [mkRow [104]], cx := 1 }
    (by decide) (by decide) (by decide) (by decide) (by decide)
